import Mathlib

/-
Verification of the figments compositing engine against its specification.
Shallow embedding of the Rust sources: the 8-bit fixed-point kernel
(liber8tion/interpolate.rs), geometry (geometry.rs), the linear and stride
coordinate mappings (mappings.rs, mappings/stride.rs), the buffered surface
engine (surface.rs) and the power-budget stage (figments-render/src/power.rs).
Machine integers are modelled as Nat; wrapping arithmetic carries an explicit
modulus where the source can overflow.  Where a definition is only meaningful
for in-range (u8/u16) arguments, the theorems carry the range hypotheses.
-/

set_option linter.unusedVariables false

deriving instance DecidableEq for Except

namespace Figments

/-! ## 8-bit fixed point kernel (liber8tion/interpolate.rs) -/

/-- FastLED-style scale: `scale8(v, s) = v * (1+s) >> 8` with exact shortcuts
for fractions 0 and 255 (src/src/liber8tion/interpolate.rs, `Fract8Ops for u8`,
the repository's only definition of `scale8`).  Both arguments are u8 in the
source; no u16 overflow occurs for in-range arguments. -/
def scale8 (v s : Nat) : Nat :=
  if s = 0 then 0
  else if s = 255 then v
  else v * (1 + s) / 256

/-- Scale for usize values: the source casts the value to u8 first
(`(self as u8).scale8(scale) as usize`). -/
def scale8usize (v s : Nat) : Nat :=
  scale8 (v % 256) s

/-- Blend of two u8 channels (figments/src/liber8tion/interpolate.rs,
`Fract8Ops for u8::blend8`): exact shortcuts for fractions 0 and 255, else
`((a << 8 | b) + b*s - a*s) >> 8` computed with wrapping u16 arithmetic.
Arguments are u8 in the source. -/
def blend8 (a b s : Nat) : Nat :=
  if s = 0 then a
  else if s = 255 then b
  else ((a * 256 + b + b * s) % 65536 + 65536 - a * s % 65536) % 65536 / 256 % 256

/-! ## Pixel formats (rgb crate channel-order structs, figments pixel algebra)

The five supported hardware formats.  `blend8` lifts componentwise
(figments/src/liber8tion/interpolate.rs, `fract8_color_impl!`). -/

structure Rgb where
  r : Nat
  g : Nat
  b : Nat
deriving Repr, DecidableEq, Inhabited

structure Grb where
  g : Nat
  r : Nat
  b : Nat
deriving Repr, DecidableEq, Inhabited

structure Bgr where
  b : Nat
  g : Nat
  r : Nat
deriving Repr, DecidableEq, Inhabited

structure Rgba where
  r : Nat
  g : Nat
  b : Nat
  a : Nat
deriving Repr, DecidableEq, Inhabited

structure Bgra where
  b : Nat
  g : Nat
  r : Nat
  a : Nat
deriving Repr, DecidableEq, Inhabited

def Rgb.blend8 (p q : Rgb) (s : Nat) : Rgb :=
  ⟨Figments.blend8 p.r q.r s, Figments.blend8 p.g q.g s, Figments.blend8 p.b q.b s⟩

def Grb.blend8 (p q : Grb) (s : Nat) : Grb :=
  ⟨Figments.blend8 p.g q.g s, Figments.blend8 p.r q.r s, Figments.blend8 p.b q.b s⟩

def Bgr.blend8 (p q : Bgr) (s : Nat) : Bgr :=
  ⟨Figments.blend8 p.b q.b s, Figments.blend8 p.g q.g s, Figments.blend8 p.r q.r s⟩

def Rgba.blend8 (p q : Rgba) (s : Nat) : Rgba :=
  ⟨Figments.blend8 p.r q.r s, Figments.blend8 p.g q.g s, Figments.blend8 p.b q.b s,
   Figments.blend8 p.a q.a s⟩

def Bgra.blend8 (p q : Bgra) (s : Nat) : Bgra :=
  ⟨Figments.blend8 p.b q.b s, Figments.blend8 p.g q.g s, Figments.blend8 p.r q.r s,
   Figments.blend8 p.a q.a s⟩

/-- Modelled from the spec: the additive-composite primitive
`AdditivePixelSink::add` is referenced by `BufferedSurfacePool::render_to`
(figments/src/surface.rs) but its definition is missing from src/.  Per spec
section 4.2: opacity 0 is a no-op, opacity 255 a direct overwrite, else the
standard blend. -/
def Rgb.add (p overlay : Rgb) (opacity : Nat) : Rgb :=
  if opacity = 0 then p
  else if opacity = 255 then overlay
  else p.blend8 overlay opacity

/-- Modelled from the spec: additive composite for Grb, as for Rgb. -/
def Grb.add (p overlay : Grb) (opacity : Nat) : Grb :=
  if opacity = 0 then p
  else if opacity = 255 then overlay
  else p.blend8 overlay opacity

/-- Modelled from the spec: additive composite for Bgr, as for Rgb. -/
def Bgr.add (p overlay : Bgr) (opacity : Nat) : Bgr :=
  if opacity = 0 then p
  else if opacity = 255 then overlay
  else p.blend8 overlay opacity

/-- Modelled from the spec: additive composite for Rgba, as for Rgb. -/
def Rgba.add (p overlay : Rgba) (opacity : Nat) : Rgba :=
  if opacity = 0 then p
  else if opacity = 255 then overlay
  else p.blend8 overlay opacity

/-- Modelled from the spec: additive composite for Bgra, as for Rgb. -/
def Bgra.add (p overlay : Bgra) (opacity : Nat) : Bgra :=
  if opacity = 0 then p
  else if opacity = 255 then overlay
  else p.blend8 overlay opacity

/-! ## Geometry (figments/src/geometry.rs)

Coordinate components are unsigned machine integers bounded by the space's
MAX (255 for the Virtual space); the bound is carried as `mx`. -/

structure Coords where
  x : Nat
  y : Nat
deriving Repr, DecidableEq, Inhabited

/-- Rotation of a coordinate by `rotation` quarter turns
(`Coordinates::rotated`, geometry.rs lines 77-84), verbatim from the source:
case 1 swaps the axes, case 2 reflects the swapped axes through MAX, and case
3 sets both components to `MAX - y`. -/
def Coords.rotated (mx : Nat) (c : Coords) (rotation : Nat) : Coords :=
  match rotation % 4 with
  | 1 => ⟨c.y, c.x⟩
  | 2 => ⟨mx - c.y, mx - c.x⟩
  | 3 => ⟨mx - c.y, mx - c.y⟩
  | _ => ⟨c.x, c.y⟩

structure Rect where
  top_left : Coords
  bottom_right : Coords
deriving Repr, DecidableEq, Inhabited

/-- Rotation of a rectangle (`Rectangle::rotated`, geometry.rs lines 146-154):
rotate both corners, then renormalise with min/max. -/
def Rect.rotated (mx : Nat) (r : Rect) (rotation : Nat) : Rect :=
  let a := r.top_left.rotated mx rotation
  let b := r.bottom_right.rotated mx rotation
  ⟨⟨min a.x b.x, min a.y b.y⟩, ⟨max a.x b.x, max a.y b.y⟩⟩

/-- Rectangle spanning the whole space (`Rectangle::everything`). -/
def Rect.everything (mx : Nat) : Rect :=
  ⟨⟨0, 0⟩, ⟨mx, mx⟩⟩

def Rect.width (r : Rect) : Nat := r.bottom_right.x - r.top_left.x

def Rect.height (r : Rect) : Nat := r.bottom_right.y - r.top_left.y

def Rect.left (r : Rect) : Nat := r.top_left.x

def Rect.top (r : Rect) : Nat := r.top_left.y

def Rect.right (r : Rect) : Nat := r.bottom_right.x

def Rect.bottom (r : Rect) : Nat := r.bottom_right.y

/-! ## Linear mapping (figments/src/mappings.rs, `LinearSampleView`)

The view scales the virtual rectangle's left/right (u8) against
`pixel_count - 1` cast to u8, then iterates physical indices from
`start_idx` until the running index equals `end_idx`.  The iterator is
embedded as a fuel-bounded runner (the source loop would not terminate when
`start_idx > end_idx`); the virtual x coordinate the source attaches to each
pair is computed in f32 and is not modelled. -/

/-- Start index of a linear sample: `scale8(pixcount as u8, rect.left())`
with `pixcount = pixel_count() - 1` (`LinearSampleView::new`). -/
def linearStart (n left : Nat) : Nat :=
  scale8 ((n - 1) % 256) left

/-- End index of a linear sample: `scale8(pixcount as u8, rect.right())`. -/
def linearEnd (n right : Nat) : Nat :=
  scale8 ((n - 1) % 256) right

/-- One step of the `LinearSampleView` iterator: stop when the current index
reaches `end_idx`, else yield the current index (`Iterator::next`,
mappings.rs lines 64-80). -/
def linearNext (endIdx cur : Nat) : Option (Nat × Nat) :=
  if cur = endIdx then none else some (cur, cur + 1)

/-- Fuel-bounded run of the linear iterator, collecting the physical indices
it yields. -/
def linearRun (endIdx : Nat) (fuel cur : Nat) : List Nat :=
  match fuel with
  | 0 => []
  | fuel + 1 =>
    match linearNext endIdx cur with
    | none => []
    | some (i, nxt) => i :: linearRun endIdx fuel nxt

/-- Physical indices yielded by sampling rectangle `r` over an `n`-pixel
buffer with the linear mapping. -/
def linearIndices (n : Nat) (r : Rect) (fuel : Nat) : List Nat :=
  linearRun (linearEnd n r.right) fuel (linearStart n r.left)

/-- Writing through the linear sample: every yielded cell is replaced by
`f index oldValue`; cells the iterator does not yield are untouched. -/
def linearPaint {P : Type} [Inhabited P] (n : Nat) (r : Rect) (f : Nat → P → P)
    (fuel : Nat) (dest : List P) : List P :=
  (linearIndices n r fuel).foldl (fun d i => d.set i (f i (d.getD i default))) dest

/-! ## Stride mapping (figments/src/mappings.rs and figments/src/mappings/stride.rs)

Both revisions share `Stride`, `pixel_idx_for_offset`, `from_json` and the
range computation of `StrideView::new`; they differ in the iterator's clipping
conditions. -/

structure Stride where
  length : Nat
  x : Nat
  y : Nat
  reverse : Bool
  physical_idx : Nat
deriving Repr, DecidableEq, Inhabited

/-- Physical buffer index for an offset inside a stride
(`Stride::pixel_idx_for_offset`). -/
def Stride.pixel_idx_for_offset (s : Stride) (offset : Nat) : Nat :=
  if s.reverse then s.physical_idx + s.length + s.y - 1 - offset
  else s.physical_idx + offset

structure StrideMapping where
  strides : List Stride
  pixel_count : Nat
  size : Rect
deriving Repr, DecidableEq, Inhabited

/-- Accumulating loop of `StrideMapping::from_json`: assigns each segment its
base physical index and folds the bounding rectangle as the union of the
segments' `(x, y..y+length-1)` extents. -/
def fromJsonGo : List (Nat × Nat × Nat × Bool) → Nat → Option Rect → List Stride →
    StrideMapping
  | [], physical_idx, size, acc =>
    ⟨acc, physical_idx, size.getD default⟩
  | (x, y, length, reverse) :: rest, physical_idx, size, acc =>
    let st : Stride := ⟨length, x, y, reverse, physical_idx⟩
    let size2 : Rect :=
      match size with
      | none => ⟨⟨x, y⟩, ⟨x, y + length - 1⟩⟩
      | some s =>
        ⟨⟨min s.top_left.x x, min s.top_left.y y⟩,
         ⟨max s.bottom_right.x x, max s.bottom_right.y (y + length - 1)⟩⟩
    fromJsonGo rest (physical_idx + length) (some size2) (acc ++ [st])

/-- Builds a stride mapping from `(x, y, pixel_num, reversed)` segments
(`StrideMapping::from_json`).  The source unwraps the folded size, panicking
on an empty segment list; the embedding's default only stands in for that
panic and is never relied on. -/
def from_json (json : List (Nat × Nat × Nat × Bool)) : StrideMapping :=
  fromJsonGo json 0 none []

/-- Segment-space window of a requested virtual rectangle
(`StrideView::new`, identical in both revisions): each corner is the virtual
coordinate scaled (as usize, hence via a u8 cast) against the bounding box's
width/height, shifted by the box's top-left. -/
def strideRange (m : StrideMapping) (r : Rect) : Rect :=
  ⟨⟨scale8usize m.size.width r.top_left.x + m.size.left,
    scale8usize m.size.height r.top_left.y + m.size.top⟩,
   ⟨scale8usize m.size.width r.bottom_right.x + m.size.left,
    scale8usize m.size.height r.bottom_right.y + m.size.top⟩⟩

/-- Column scan of the older `StrideView` iterator (figments/src/mappings.rs
lines 223-271): clip the cursor up to the stride's top, advance to the next
column when past `range.bottom_right.y` or past the stride's last cell
(`stride.y + stride.length - 1`), else yield the cell and step down.  Each
continue advances the column, so the scan is bounded by the window's
remaining column count, carried here as the structural argument `fx`;
callers pass `bottom_right.x + 1 - curx`, and when it is exhausted the
cursor is already past the window, where the source loop also stops. -/
def strideNextOldGo (m : StrideMapping) (range : Rect) :
    Nat → Nat → Nat → Option (Nat × Nat × Nat)
  | 0, _, _ => none
  | fx + 1, curx, cury =>
    if range.bottom_right.x < curx then none
    else
      let st := m.strides.getD curx default
      let y1 := if cury < st.y then st.y else cury
      if range.bottom_right.y < y1 ∨ st.y + st.length - 1 < y1 then
        strideNextOldGo m range fx (curx + 1) range.top_left.y
      else
        some (st.pixel_idx_for_offset y1, curx, y1 + 1)

/-- One `next()` of the older stride iterator: the surrounding while loop
first re-checks that the range has positive height. -/
def strideNextOld (m : StrideMapping) (range : Rect) (cur : Nat × Nat) :
    Option (Nat × Nat × Nat) :=
  if range.height = 0 then none
  else strideNextOldGo m range (range.bottom_right.x + 1 - cur.1) cur.1 cur.2

/-- Fuel-bounded run of the older stride iterator, collecting physical
indices. -/
def strideRunOld (m : StrideMapping) (range : Rect) (fuel : Nat) (cur : Nat × Nat) :
    List Nat :=
  match fuel with
  | 0 => []
  | fuel + 1 =>
    match strideNextOld m range cur with
    | none => []
    | some (i, nx, ny) => i :: strideRunOld m range fuel (nx, ny)

/-- Physical indices yielded by the older `StrideView` over rectangle `r`. -/
def strideIndicesOld (m : StrideMapping) (r : Rect) (fuel : Nat) : List Nat :=
  let range := strideRange m r
  strideRunOld m range fuel (range.top_left.x, range.top_left.y)

/-- Column scan of the newer `StrideView` iterator
(figments/src/mappings/stride.rs lines 154-203): same shape as the older one
but advances to the next column only when past `range.bottom_right.y + 1` or
past `stride.y + stride.length`; the scan bound `fx` plays the same role as
in the older iterator. -/
def strideNextNewGo (m : StrideMapping) (range : Rect) :
    Nat → Nat → Nat → Option (Nat × Nat × Nat)
  | 0, _, _ => none
  | fx + 1, curx, cury =>
    if range.bottom_right.x < curx then none
    else
      let st := m.strides.getD curx default
      let y1 := if cury < st.y then st.y else cury
      if range.bottom_right.y + 1 < y1 ∨ st.y + st.length < y1 then
        strideNextNewGo m range fx (curx + 1) range.top_left.y
      else
        some (st.pixel_idx_for_offset y1, curx, y1 + 1)

/-- One `next()` of the newer stride iterator. -/
def strideNextNew (m : StrideMapping) (range : Rect) (cur : Nat × Nat) :
    Option (Nat × Nat × Nat) :=
  if range.height = 0 then none
  else strideNextNewGo m range (range.bottom_right.x + 1 - cur.1) cur.1 cur.2

/-- Fuel-bounded run of the newer stride iterator. -/
def strideRunNew (m : StrideMapping) (range : Rect) (fuel : Nat) (cur : Nat × Nat) :
    List Nat :=
  match fuel with
  | 0 => []
  | fuel + 1 =>
    match strideNextNew m range cur with
    | none => []
    | some (i, nx, ny) => i :: strideRunNew m range fuel (nx, ny)

/-- Physical indices yielded by the newer `StrideView` over rectangle `r`. -/
def strideIndicesNew (m : StrideMapping) (r : Rect) (fuel : Nat) : List Nat :=
  let range := strideRange m r
  strideRunNew m range fuel (range.top_left.x, range.top_left.y)

/-! ## Buffered surface engine (figments/src/surface.rs)

`S` stands for the boxed shader object (`Box<dyn Shader>`), kept opaque; a
`drawShader` evaluation function is passed to the render loop.  The rest of
the state is embedded directly: bindings list, pending-update FIFO (capacity
32, `StaticRb<_, 32>`) and the dirty flag. -/

structure ShaderBinding (S : Type) where
  shader : Option S
  rect : Rect
  opacity : Nat
  visible : Bool
  offset : Coords
deriving Repr, DecidableEq, Inhabited

structure SurfaceUpdate (S : Type) where
  shader : Option (Option S)
  rect : Option Rect
  opacity : Option Nat
  visible : Option Bool
  offset : Option Coords
  slot : Nat
deriving Repr, DecidableEq, Inhabited

/-- Default update: every field absent (`Default for SurfaceUpdate`); the
source marks the slot with `usize::MAX`, always overwritten before use. -/
def emptyUpdate {S : Type} : SurfaceUpdate S :=
  ⟨none, none, none, none, none, 2 ^ 64 - 1⟩

/-- Field-by-field merge of a later update into an earlier one for the same
slot (`SurfaceUpdate::merge`): each field present in `other` overwrites. -/
def SurfaceUpdate.merge {S : Type} (self other : SurfaceUpdate S) : SurfaceUpdate S :=
  { shader := if other.shader.isSome then other.shader else self.shader
    rect := if other.rect.isSome then other.rect else self.rect
    opacity := if other.opacity.isSome then other.opacity else self.opacity
    visible := if other.visible.isSome then other.visible else self.visible
    offset := if other.offset.isSome then other.offset else self.offset
    slot := self.slot }

structure UpdateQueue (S : Type) where
  pending : List (SurfaceUpdate S)
  damaged : Bool
deriving Repr, DecidableEq

/-- Scan of the pending FIFO for an update with the same slot
(`UpdateQueue::push`, the `iter_mut` loop): the first match is merged in
place. -/
def mergeIntoPending {S : Type} : List (SurfaceUpdate S) → SurfaceUpdate S →
    Option (List (SurfaceUpdate S))
  | [], _ => none
  | e :: rest, u =>
    if e.slot = u.slot then some (e.merge u :: rest)
    else (mergeIntoPending rest u).map (fun l => e :: l)

/-- Push of an update (`UpdateQueue::push`): merge into an existing pending
update for the same slot, else append to the FIFO and set the dirty flag;
a full FIFO rejects the new update, returning it as the error with the queue
untouched. -/
def UpdateQueue.push {S : Type} (q : UpdateQueue S) (u : SurfaceUpdate S) :
    Except (SurfaceUpdate S) (UpdateQueue S) :=
  match mergeIntoPending q.pending u with
  | some merged => Except.ok { q with pending := merged }
  | none =>
    if q.pending.length < 32 then
      Except.ok { pending := q.pending ++ [u], damaged := true }
    else Except.error u

/-- Drain (`UpdateQueue::try_take`): when dirty, swap the FIFO for an empty
one and clear the flag. -/
def UpdateQueue.tryTake {S : Type} (q : UpdateQueue S) :
    Option (List (SurfaceUpdate S)) × UpdateQueue S :=
  if q.damaged then (some q.pending, ⟨[], false⟩) else (none, q)

structure ShaderChain (S : Type) where
  bindings : List (ShaderBinding S)
  updates : UpdateQueue S
deriving Repr, DecidableEq

/-- Application of one drained patch to its binding (`ShaderChain::commit`,
figments/src/surface.rs lines 225-239): the shader, opacity, rect and visible
fields are taken when present; the patch's offset field is never consulted.
The source indexes `self.bindings[update.slot]` and would panic for an
out-of-range slot; such patches cannot arise from surface handles. -/
def applyUpdate {S : Type} (bs : List (ShaderBinding S)) (u : SurfaceUpdate S) :
    List (ShaderBinding S) :=
  match bs.get? u.slot with
  | none => bs
  | some b =>
    let b1 := match u.shader with
      | some sh => { b with shader := sh }
      | none => b
    let b2 := match u.opacity with
      | some o => { b1 with opacity := o }
      | none => b1
    let b3 := match u.rect with
      | some rc => { b2 with rect := rc }
      | none => b2
    let b4 := match u.visible with
      | some v => { b3 with visible := v }
      | none => b3
    bs.set u.slot b4

/-- Commit (`ShaderChain::commit`): atomically drain the FIFO and apply every
drained patch to its binding in FIFO order. -/
def ShaderChain.commit {S : Type} (c : ShaderChain S) : ShaderChain S :=
  match c.updates.tryTake with
  | (some queue, q2) => ⟨queue.foldl applyUpdate c.bindings, q2⟩
  | (none, q2) => ⟨c.bindings, q2⟩

/-- Creation of a surface (`ShaderChain::new_surface`): append a binding with
opacity 255, no shader, the given rectangle, visible, zero offset; the handle
carries the new slot index. -/
def ShaderChain.new_surface {S : Type} (c : ShaderChain S) (area : Rect) :
    ShaderChain S × Nat :=
  (⟨c.bindings ++ [⟨none, area, 255, true, ⟨0, 0⟩⟩], c.updates⟩, c.bindings.length)

/-- Handle mutator `set_shader`: push a single-field patch. -/
def ShaderChain.set_shader {S : Type} (c : ShaderChain S) (slot : Nat) (sh : S) :
    Except (SurfaceUpdate S) (ShaderChain S) :=
  (c.updates.push { (emptyUpdate : SurfaceUpdate S) with shader := some (some sh), slot := slot }).map
    (fun q => ⟨c.bindings, q⟩)

/-- Handle mutator `clear_shader`. -/
def ShaderChain.clear_shader {S : Type} (c : ShaderChain S) (slot : Nat) :
    Except (SurfaceUpdate S) (ShaderChain S) :=
  (c.updates.push { (emptyUpdate : SurfaceUpdate S) with shader := some none, slot := slot }).map
    (fun q => ⟨c.bindings, q⟩)

/-- Handle mutator `set_rect`. -/
def ShaderChain.set_rect {S : Type} (c : ShaderChain S) (slot : Nat) (rc : Rect) :
    Except (SurfaceUpdate S) (ShaderChain S) :=
  (c.updates.push { (emptyUpdate : SurfaceUpdate S) with rect := some rc, slot := slot }).map
    (fun q => ⟨c.bindings, q⟩)

/-- Handle mutator `set_opacity`. -/
def ShaderChain.set_opacity {S : Type} (c : ShaderChain S) (slot : Nat) (o : Nat) :
    Except (SurfaceUpdate S) (ShaderChain S) :=
  (c.updates.push { (emptyUpdate : SurfaceUpdate S) with opacity := some o, slot := slot }).map
    (fun q => ⟨c.bindings, q⟩)

/-- Handle mutator `set_visible`. -/
def ShaderChain.set_visible {S : Type} (c : ShaderChain S) (slot : Nat) (v : Bool) :
    Except (SurfaceUpdate S) (ShaderChain S) :=
  (c.updates.push { (emptyUpdate : SurfaceUpdate S) with visible := some v, slot := slot }).map
    (fun q => ⟨c.bindings, q⟩)

/-- Handle mutator `set_offset`. -/
def ShaderChain.set_offset {S : Type} (c : ShaderChain S) (slot : Nat) (off : Coords) :
    Except (SurfaceUpdate S) (ShaderChain S) :=
  (c.updates.push { (emptyUpdate : SurfaceUpdate S) with offset := some off, slot := slot }).map
    (fun q => ⟨c.bindings, q⟩)

/-- Inner paint loop of `render_to`: for each sampled cell, replace the
destination pixel at the cell's physical index by `g cell oldValue`. -/
def paintCells {P : Type} [Inhabited P] (g : Coords × Nat → P → P)
    (cells : List (Coords × Nat)) (d : List P) : List P :=
  cells.foldl (fun d2 cell => d2.set cell.2 (g cell (d2.getD cell.2 default))) d

/-- Render loop (`RenderSource::render_to for BufferedSurfacePool`,
figments/src/surface.rs lines 283-299): iterate the bindings in slot order;
skip a binding when its opacity is 0, it is invisible, or it has no shader;
otherwise sample its rectangle, add the binding's offset to each coordinate
(`addC`, the missing `Add` on `Coordinates`, modelled from the spec as a
parameter), evaluate the shader and composite with `addPix` at the binding's
opacity.  The pending queue is not consulted: this revision's `render_to`
performs no commit. -/
def renderTo {S U P : Type} [Inhabited P] (drawShader : S → Coords → U → P)
    (addC : Coords → Coords → Coords) (addPix : P → P → Nat → P)
    (sample : Rect → List (Coords × Nat)) (c : ShaderChain S) (uniforms : U)
    (dest : List P) : List P :=
  c.bindings.foldl
    (fun d surface =>
      if 0 < surface.opacity ∧ surface.visible = true then
        match surface.shader with
        | some shader =>
          paintCells
            (fun cell v =>
              addPix v (drawShader shader (addC cell.1 surface.offset) uniforms)
                surface.opacity)
            (sample surface.rect) d
        | none => d
      else d)
    dest

/-- Follows the spec's words (section 4.5): `render_to(sampler, uniforms)`
first performs `commit()`, then composites the bindings.  Defined for
comparison with the source's `renderTo`. -/
def renderToSpec {S U P : Type} [Inhabited P] (drawShader : S → Coords → U → P)
    (addC : Coords → Coords → Coords) (addPix : P → P → Nat → P)
    (sample : Rect → List (Coords × Nat)) (c : ShaderChain S) (uniforms : U)
    (dest : List P) : List P :=
  renderTo drawShader addC addPix sample c.commit uniforms dest

/-! ## Power-budget stage (figments-render/src/power.rs) -/

/-- Estimated draw of one Rgb pixel (`AsMilliwatts for Rgb`): weighted
channel levels against the WS2812B reference currents plus the idle floor. -/
def Rgb.as_milliwatts (p : Rgb) : Nat :=
  p.r * 80 / 256 + p.g * 55 / 256 + p.b * 75 / 256 + 5

/-- Effective brightness for a power ceiling (`brightness_for_mw`): the
requested draw is `total_mw * target / 256`; when it exceeds the ceiling the
target is scaled by `ceiling / requested` (integer division, cast to u8). -/
def brightness_for_mw (total_mw target max_power : Nat) : Nat :=
  let requested_mw := total_mw * target / 256
  if max_power < requested_mw then target * max_power / requested_mw % 256
  else target

/-! ## Theorems -/

/-- C5: for every supported pixel format and all pixel values, blending with
fraction 0 returns the first argument bit-exactly and fraction 255 the
second; the additive composite with opacity 0 leaves the destination
unchanged and with opacity 255 yields exactly the overlay. -/
theorem C5_blend_add_endpoints :
    (∀ a b : Rgb, a.blend8 b 0 = a ∧ a.blend8 b 255 = b ∧ a.add b 0 = a ∧ a.add b 255 = b) ∧
    (∀ a b : Grb, a.blend8 b 0 = a ∧ a.blend8 b 255 = b ∧ a.add b 0 = a ∧ a.add b 255 = b) ∧
    (∀ a b : Bgr, a.blend8 b 0 = a ∧ a.blend8 b 255 = b ∧ a.add b 0 = a ∧ a.add b 255 = b) ∧
    (∀ a b : Rgba, a.blend8 b 0 = a ∧ a.blend8 b 255 = b ∧ a.add b 0 = a ∧ a.add b 255 = b) ∧
    (∀ a b : Bgra, a.blend8 b 0 = a ∧ a.blend8 b 255 = b ∧ a.add b 0 = a ∧ a.add b 255 = b) := by
  refine ⟨fun a b => ?_, fun a b => ?_, fun a b => ?_, fun a b => ?_, fun a b => ?_⟩ <;>
    cases a <;> cases b <;>
      simp [Rgb.blend8, Grb.blend8, Bgr.blend8, Rgba.blend8, Bgra.blend8,
        Rgb.add, Grb.add, Bgr.add, Rgba.add, Bgra.add, Figments.blend8]

/-- C6 counterexample: `rotated(2)` does not agree with two successive
applications of `rotated(1)` — `rotated(1)` is an axis transpose, an
involution, while `rotated(2)` reflects through the space maximum. -/
theorem C6_counterexample :
    Rect.rotated 255 ⟨⟨0, 0⟩, ⟨10, 20⟩⟩ 2 ≠
      Rect.rotated 255 (Rect.rotated 255 ⟨⟨0, 0⟩, ⟨10, 20⟩⟩ 1) 1 := by
  decide

/-- Helper for C6: a single quarter turn transposes the corners of a
normalised rectangle. -/
theorem rotated_one_eq (mx x1 y1 x2 y2 : Nat) (hx : x1 ≤ x2) (hy : y1 ≤ y2) :
    Rect.rotated mx ⟨⟨x1, y1⟩, ⟨x2, y2⟩⟩ 1 = ⟨⟨y1, x1⟩, ⟨y2, x2⟩⟩ := by
  simp only [Rect.rotated, Coords.rotated]
  norm_num [Rect.mk.injEq, Coords.mk.injEq]
  omega

/-- C6 (amended): four successive 90-degree turns return any normalised
rectangle, and `rotated(4)` is the identity on normalised rectangles; but
`rotated(n)` is not n successive `rotated(1)` (see the counterexample). -/
theorem C6_rotated_four_times (mx : Nat) (r : Rect)
    (hx : r.top_left.x ≤ r.bottom_right.x) (hy : r.top_left.y ≤ r.bottom_right.y) :
    Rect.rotated mx (Rect.rotated mx (Rect.rotated mx (Rect.rotated mx r 1) 1) 1) 1 = r ∧
    Rect.rotated mx r 4 = r := by
  obtain ⟨⟨x1, y1⟩, ⟨x2, y2⟩⟩ := r
  simp only at hx hy
  constructor
  · rw [rotated_one_eq mx x1 y1 x2 y2 hx hy, rotated_one_eq mx y1 x1 y2 x2 hy hx,
      rotated_one_eq mx x1 y1 x2 y2 hx hy, rotated_one_eq mx y1 x1 y2 x2 hy hx]
  · simp only [Rect.rotated, Coords.rotated]
    norm_num [Rect.mk.injEq, Coords.mk.injEq]
    omega

/-- Witness for C6_rotated_four_times at a concrete rectangle. -/
theorem C6_rotated_four_times_witness :
    Rect.rotated 255 (Rect.rotated 255 (Rect.rotated 255 (Rect.rotated 255
        (⟨⟨1, 2⟩, ⟨30, 40⟩⟩ : Rect) 1) 1) 1) 1 = ⟨⟨1, 2⟩, ⟨30, 40⟩⟩ ∧
    Rect.rotated 255 (⟨⟨1, 2⟩, ⟨30, 40⟩⟩ : Rect) 4 = ⟨⟨1, 2⟩, ⟨30, 40⟩⟩ :=
  C6_rotated_four_times 255 ⟨⟨1, 2⟩, ⟨30, 40⟩⟩ (by decide) (by decide)

/-- C9 counterexample: the source divides by 256, not 255.  At
`total_mw = 256, target = 255, ceiling = 255` the claim's requested draw
`256*255/255 = 256` exceeds the ceiling, so the claim demands the scaled
brightness `255*255/256 = 254`; the code keeps the full target 255. -/
theorem C9_counterexample :
    brightness_for_mw 256 255 255 = 255 ∧
    255 < 256 * 255 / 255 ∧
    255 * 255 / (256 * 255 / 255) = 254 ∧
    (255 : Nat) ≠ 254 := by
  decide

/-- C9 (amended): with the requested draw computed as
`total_mw * target / 256` (integer division), the effective brightness equals
the target exactly when the requested draw is within the ceiling, and
otherwise equals `target * ceiling / requested` with
`total_mw * effective / 256 ≤ ceiling`. -/
theorem C9_brightness_for_mw (total target maxp : Nat) (ht : target ≤ 255) :
    (total * target / 256 ≤ maxp → brightness_for_mw total target maxp = target) ∧
    (maxp < total * target / 256 →
      brightness_for_mw total target maxp = target * maxp / (total * target / 256) ∧
      total * brightness_for_mw total target maxp / 256 ≤ maxp) := by
  constructor
  · intro h
    simp only [brightness_for_mw]
    rw [if_neg (by omega)]
  · intro h
    have hR1 : 1 ≤ total * target / 256 := by omega
    have hsmall : target * maxp / (total * target / 256) ≤ target := by
      have h1 : target * maxp ≤ target * (total * target / 256) :=
        Nat.mul_le_mul_left _ (le_of_lt h)
      calc target * maxp / (total * target / 256)
          ≤ target * (total * target / 256) / (total * target / 256) :=
            Nat.div_le_div_right h1
        _ = target := Nat.mul_div_cancel target hR1
    have heq : brightness_for_mw total target maxp =
        target * maxp / (total * target / 256) := by
      simp only [brightness_for_mw]
      rw [if_pos h, Nat.mod_eq_of_lt (by omega)]
    refine ⟨heq, ?_⟩
    rw [heq]
    set R := total * target / 256 with hR
    set E := target * maxp / R with hE
    have h1 : E * R ≤ target * maxp := Nat.div_mul_le_self _ _
    have h2 : total * target ≤ 256 * R + 255 := by
      have hdm := Nat.div_add_mod (total * target) 256
      have hm : total * target % 256 < 256 := Nat.mod_lt _ (by norm_num)
      omega
    have h3 : total * E * R ≤ total * (target * maxp) := by
      calc total * E * R = total * (E * R) := by ring
        _ ≤ total * (target * maxp) := Nat.mul_le_mul_left _ h1
    have h5 : total * (target * maxp) ≤ (256 * R + 255) * maxp := by
      calc total * (target * maxp) = total * target * maxp := by ring
        _ ≤ (256 * R + 255) * maxp := Nat.mul_le_mul_right _ h2
    have h6 : (256 * R + 255) * maxp < (256 * maxp + 256) * R := by nlinarith
    have h7 : total * E < 256 * maxp + 256 := by
      have := lt_of_le_of_lt (le_trans h3 (le_trans (le_of_eq rfl) h5)) h6
      exact Nat.lt_of_mul_lt_mul_right this
    have : total * E / 256 < maxp + 1 := by
      rw [Nat.div_lt_iff_lt_mul (by norm_num : (0 : Nat) < 256)]
      omega
    omega

/-- Witness for C9_brightness_for_mw: a frame over the ceiling. -/
theorem C9_brightness_witness :
    brightness_for_mw 512 255 100 = 255 * 100 / (512 * 255 / 256) ∧
    512 * brightness_for_mw 512 255 100 / 256 ≤ 100 :=
  (C9_brightness_for_mw 512 255 100 (by decide)).2 (by decide)

/-- Helper: the merge scan finds nothing when no pending update targets the
pushed update's slot. -/
theorem mergeIntoPending_eq_none {S : Type} (l : List (SurfaceUpdate S))
    (u : SurfaceUpdate S) (h : ∀ p ∈ l, p.slot ≠ u.slot) :
    mergeIntoPending l u = none := by
  induction l with
  | nil => rfl
  | cons e rest ih =>
    simp only [mergeIntoPending]
    rw [if_neg (h e (List.mem_cons_self e rest))]
    rw [ih (fun p hp => h p (List.mem_cons_of_mem e hp))]
    rfl

/-- Single-field patch carrying an opacity, as built by `set_opacity`. -/
def updOpacity {S : Type} (o s : Nat) : SurfaceUpdate S :=
  { emptyUpdate with opacity := some o, slot := s }

/-- Single-field patch carrying a visibility flag, as built by `set_visible`. -/
def updVisible {S : Type} (v : Bool) (s : Nat) : SurfaceUpdate S :=
  { emptyUpdate with visible := some v, slot := s }

/-- Single-field patch carrying a coordinate offset, as built by `set_offset`. -/
def updOffset {S : Type} (off : Coords) (s : Nat) : SurfaceUpdate S :=
  { emptyUpdate with offset := some off, slot := s }

/-- Helper: when no earlier pending update targets the slot, the merge scan
merges into the final matching entry. -/
theorem mergeIntoPending_append_last {S : Type} (l : List (SurfaceUpdate S))
    (e u : SurfaceUpdate S) (h : ∀ p ∈ l, p.slot ≠ u.slot) (he : e.slot = u.slot) :
    mergeIntoPending (l ++ [e]) u = some (l ++ [e.merge u]) := by
  induction l with
  | nil =>
    simp only [List.nil_append, mergeIntoPending]
    rw [if_pos he]
  | cons p rest ih =>
    simp only [List.cons_append, mergeIntoPending, List.append_eq]
    rw [if_neg (h p (List.mem_cons_self p rest))]
    rw [ih (fun q hq => h q (List.mem_cons_of_mem p hq))]
    rfl

/-- Helper: a successful merge scan permutes no entries and changes no slots. -/
theorem mergeIntoPending_map_slot {S : Type} (l : List (SurfaceUpdate S))
    (u : SurfaceUpdate S) (m : List (SurfaceUpdate S))
    (hm : mergeIntoPending l u = some m) :
    m.map SurfaceUpdate.slot = l.map SurfaceUpdate.slot := by
  induction l generalizing m with
  | nil => cases hm
  | cons e rest ih =>
    simp only [mergeIntoPending] at hm
    by_cases he : e.slot = u.slot
    · rw [if_pos he] at hm
      cases hm
      simp [SurfaceUpdate.merge]
    · rw [if_neg he] at hm
      cases hr : mergeIntoPending rest u with
      | none => rw [hr] at hm; cases hm
      | some m2 =>
        rw [hr] at hm
        simp only [Option.map_some'] at hm
        cases hm
        simp [ih m2 hr]

/-- Helper: a failed merge scan means no pending entry targets the slot. -/
theorem mergeIntoPending_none_forall {S : Type} (l : List (SurfaceUpdate S))
    (u : SurfaceUpdate S) (hm : mergeIntoPending l u = none) :
    ∀ p ∈ l, p.slot ≠ u.slot := by
  induction l with
  | nil => intro p hp; cases hp
  | cons e rest ih =>
    intro p hp
    simp only [mergeIntoPending] at hm
    by_cases he : e.slot = u.slot
    · rw [if_pos he] at hm; cases hm
    · rw [if_neg he] at hm
      rcases List.mem_cons.mp hp with rfl | hrest
      · exact he
      · cases hr : mergeIntoPending rest u with
        | some m2 => rw [hr] at hm; cases hm
        | none => exact ih hr p hrest

/-- Helper: filtering by slot respects the slot projection. -/
theorem filter_slot_length_eq {S : Type} (l m : List (SurfaceUpdate S)) (t : Nat)
    (h : l.map SurfaceUpdate.slot = m.map SurfaceUpdate.slot) :
    (l.filter (fun p => p.slot = t)).length = (m.filter (fun p => p.slot = t)).length := by
  induction l generalizing m with
  | nil =>
    cases m with
    | nil => rfl
    | cons _ _ => simp at h
  | cons e rest ih =>
    cases m with
    | nil => simp at h
    | cons e2 rest2 =>
      simp only [List.map_cons, List.cons.injEq] at h
      simp only [List.filter_cons]
      by_cases he : e.slot = t
      · rw [if_pos (by simpa using he), if_pos (by simp [← h.1, he])]
        simp [ih rest2 h.2]
      · rw [if_neg (by simpa using he), if_neg (by simp [← h.1, he])]
        exact ih rest2 h.2

/-- C4: pushing a patch for a slot with no pending update into a full FIFO is
a hard failure surfaced at the mutator call site: the push returns the
rejected update as an error before touching the FIFO or the dirty flag, and
`set_opacity` unwraps that error immediately (a panic at the call site). -/
theorem C4_full_queue_rejects (c : ShaderChain Nat) (slot o : Nat)
    (hfull : c.updates.pending.length = 32)
    (hnew : ∀ p ∈ c.updates.pending, p.slot ≠ slot) :
    c.set_opacity slot o = Except.error (updOpacity o slot) := by
  simp only [ShaderChain.set_opacity, UpdateQueue.push]
  rw [mergeIntoPending_eq_none _ _ (fun p hp => hnew p hp)]
  simp [hfull, updOpacity, Except.map]

/-- Concrete engine state with a full pending FIFO (32 distinct slots). -/
def fullQueueChain : ShaderChain Nat :=
  ⟨[], ⟨(List.range 32).map (fun i => updOpacity 1 i), true⟩⟩

/-- Witness for C4_full_queue_rejects on the concrete full queue. -/
theorem C4_full_queue_rejects_witness :
    fullQueueChain.set_opacity 40 7 = Except.error (updOpacity 7 40) :=
  C4_full_queue_rejects fullQueueChain 40 7 (by decide) (by decide)

/-- C3 counterexample: two `set_offset` mutations to the same uncommitted
slot merge into one pending patch with the latest offset, but the following
commit does not apply that touched field: the binding keeps the prior offset,
contradicting the claim that a commit applies the latest value of each
touched field. -/
theorem C3_counterexample :
    (UpdateQueue.push (⟨[], false⟩ : UpdateQueue Nat) (updOffset ⟨1, 1⟩ 0) =
      Except.ok ⟨[updOffset ⟨1, 1⟩ 0], true⟩) ∧
    (UpdateQueue.push (⟨[updOffset ⟨1, 1⟩ 0], true⟩ : UpdateQueue Nat)
        (updOffset ⟨2, 2⟩ 0) =
      Except.ok ⟨[updOffset ⟨2, 2⟩ 0], true⟩) ∧
    ((ShaderChain.commit
        (⟨[⟨none, Rect.everything 255, 255, true, ⟨0, 0⟩⟩],
         ⟨[updOffset ⟨2, 2⟩ 0], true⟩⟩ : ShaderChain Nat)).bindings.getD 0
        default).offset = ⟨0, 0⟩ ∧
    ((⟨0, 0⟩ : Coords) ≠ ⟨2, 2⟩) := by
  decide

/-- Helper: one patch application leaves bindings at other slots alone. -/
theorem applyUpdate_get_ne {S : Type} (bs : List (ShaderBinding S))
    (u : SurfaceUpdate S) (j : Nat) (h : u.slot ≠ j) :
    (applyUpdate bs u).get? j = bs.get? j := by
  simp only [applyUpdate]
  cases hb : bs.get? u.slot with
  | none => rfl
  | some b => exact List.get?_set_ne _ _ h

/-- Helper: a run of patches for other slots leaves a binding alone. -/
theorem foldl_applyUpdate_get_ne {S : Type} (l : List (SurfaceUpdate S))
    (bs : List (ShaderBinding S)) (j : Nat) (h : ∀ p ∈ l, p.slot ≠ j) :
    (l.foldl applyUpdate bs).get? j = bs.get? j := by
  induction l generalizing bs with
  | nil => rfl
  | cons p rest ih =>
    simp only [List.foldl_cons]
    rw [ih _ (fun q hq => h q (List.mem_cons_of_mem p hq))]
    exact applyUpdate_get_ne _ _ _ (h p (List.mem_cons_self p rest))

/-- Helper: applying a patch to a valid slot sets exactly the four fields the
source commit reads, leaving the binding offset untouched. -/
theorem applyUpdate_get_self {S : Type} (bs : List (ShaderBinding S))
    (u : SurfaceUpdate S) (b : ShaderBinding S) (hb : bs.get? u.slot = some b) :
    (applyUpdate bs u).get? u.slot =
      some ⟨u.shader.getD b.shader, u.rect.getD b.rect, u.opacity.getD b.opacity,
        u.visible.getD b.visible, b.offset⟩ := by
  have hlt : u.slot < bs.length := by
    rcases List.get?_eq_some.mp hb with ⟨hl, _⟩
    exact hl
  obtain ⟨ush, urect, uop, uvis, uoff, uslot⟩ := u
  simp only at hb hlt ⊢
  simp only [applyUpdate, hb]
  rw [List.get?_set_eq_of_lt _ hlt]
  cases ush <;> cases urect <;> cases uop <;> cases uvis <;> rfl

/-- C3 (amended): the queue keeps at most one pending update per slot (a push
merges into the unique existing patch for its slot, else appends a patch for
a fresh slot), and after two uncommitted mutations to the same slot exactly
one patch is pending; the following commit applies that patch latest shader,
rect, opacity and visible values, retains prior values for untouched fields,
and always retains the prior offset (the patch offset field is dropped by
commit, claim C1 defect). -/
theorem C3_merge_on_write :
    (∀ (q qq : UpdateQueue Nat) (u : SurfaceUpdate Nat),
      (∀ t, (q.pending.filter (fun p => p.slot = t)).length ≤ 1) →
      q.push u = Except.ok qq →
      ∀ t, (qq.pending.filter (fun p => p.slot = t)).length ≤ 1) ∧
    (∀ (b0 : List (ShaderBinding Nat)) (q0 : UpdateQueue Nat)
        (u1 u2 : SurfaceUpdate Nat) (s : Nat) (b : ShaderBinding Nat),
      u1.slot = s → u2.slot = s →
      (∀ p ∈ q0.pending, p.slot ≠ s) →
      q0.pending.length < 32 →
      b0.get? s = some b →
      ∃ q1 q2 : UpdateQueue Nat,
        q0.push u1 = Except.ok q1 ∧
        q1.push u2 = Except.ok q2 ∧
        q2.pending = q0.pending ++ [u1.merge u2] ∧
        (q2.pending.filter (fun p => p.slot = s)).length = 1 ∧
        (ShaderChain.commit ⟨b0, q2⟩).bindings.get? s =
          some ⟨(u1.merge u2).shader.getD b.shader,
                (u1.merge u2).rect.getD b.rect,
                (u1.merge u2).opacity.getD b.opacity,
                (u1.merge u2).visible.getD b.visible,
                b.offset⟩) := by
  constructor
  · intro q qq u hinv hok t
    simp only [UpdateQueue.push] at hok
    cases hm : mergeIntoPending q.pending u with
    | some merged =>
      rw [hm] at hok
      cases hok
      rw [filter_slot_length_eq _ q.pending t (mergeIntoPending_map_slot _ _ _ hm)]
      exact hinv t
    | none =>
      rw [hm] at hok
      by_cases hfull : q.pending.length < 32
      · rw [if_pos hfull] at hok
        cases hok
        simp only [List.filter_append, List.length_append]
        have hnone := mergeIntoPending_none_forall _ _ hm
        by_cases hu : u.slot = t
        · have hzero : (q.pending.filter (fun p => p.slot = t)).length = 0 := by
            rw [List.length_eq_zero, List.filter_eq_nil]
            intro p hp hpt
            exact hnone p hp (by simp at hpt; omega)
          have hone : ([u].filter (fun p => p.slot = t)).length ≤ 1 := by
            simp [List.filter_cons]
            split <;> simp
          omega
        · have hzero : ([u].filter (fun p => p.slot = t)).length = 0 := by
            simp only [List.filter_cons, List.filter_nil]
            rw [if_neg (by simpa using hu)]
            rfl
          have := hinv t
          omega
      · rw [if_neg hfull] at hok
        cases hok
  · intro b0 q0 u1 u2 s b hs1 hs2 hnew hlen hb
    have hpush1 : q0.push u1 = Except.ok ⟨q0.pending ++ [u1], true⟩ := by
      simp only [UpdateQueue.push]
      rw [mergeIntoPending_eq_none _ _ (by rw [hs1]; exact hnew)]
      rw [if_pos hlen]
    have hpush2 : UpdateQueue.push ⟨q0.pending ++ [u1], true⟩ u2 =
        Except.ok ⟨q0.pending ++ [u1.merge u2], true⟩ := by
      simp only [UpdateQueue.push]
      rw [mergeIntoPending_append_last _ _ _ (by rw [hs2]; exact hnew) (by rw [hs1, hs2])]
    refine ⟨⟨q0.pending ++ [u1], true⟩, ⟨q0.pending ++ [u1.merge u2], true⟩,
      hpush1, hpush2, rfl, ?_, ?_⟩
    · simp only [List.filter_append, List.length_append]
      have h1 : (q0.pending.filter (fun p => p.slot = s)).length = 0 := by
        rw [List.length_eq_zero, List.filter_eq_nil]
        intro p hp hps
        exact absurd (by simpa using hps) (hnew p hp)
      have h2 : ([u1.merge u2].filter (fun p => p.slot = s)).length = 1 := by
        simp only [List.filter_cons, List.filter_nil]
        rw [if_pos (by simp [SurfaceUpdate.merge, hs1])]
        rfl
      omega
    · simp only [ShaderChain.commit, UpdateQueue.tryTake, if_pos]
      simp only [List.foldl_append, List.foldl_cons, List.foldl_nil]
      have hother : (q0.pending.foldl applyUpdate b0).get? s = b0.get? s :=
        foldl_applyUpdate_get_ne _ _ _ hnew
      have hslot : (u1.merge u2).slot = s := by simp [SurfaceUpdate.merge, hs1]
      rw [← hslot]
      exact applyUpdate_get_self _ _ b (by rw [hslot, hother, hb])

/-- Concrete first mutation for the C3 witness scenario. -/
def w3u1 : SurfaceUpdate Nat := updVisible false 0

/-- Concrete second mutation for the C3 witness scenario. -/
def w3u2 : SurfaceUpdate Nat := updOpacity 128 0

/-- Witness for C3_merge_on_write: both conjuncts applied to a concrete queue
and a concrete two-mutation scenario (hide then half-fade slot 0). -/
theorem C3_merge_on_write_witness :
    (((⟨[updOpacity 1 0], true⟩ : UpdateQueue Nat).pending.filter
        (fun p => p.slot = 0)).length ≤ 1) ∧
    (∃ q1 q2 : UpdateQueue Nat,
      UpdateQueue.push (⟨[], false⟩ : UpdateQueue Nat) w3u1 = Except.ok q1 ∧
      q1.push w3u2 = Except.ok q2 ∧
      q2.pending = [] ++ [w3u1.merge w3u2] ∧
      (q2.pending.filter (fun p => p.slot = 0)).length = 1 ∧
      (ShaderChain.commit ⟨[⟨none, Rect.everything 255, 255, true, ⟨0, 0⟩⟩],
          q2⟩).bindings.get? 0 =
        some ⟨(w3u1.merge w3u2).shader.getD none,
          (w3u1.merge w3u2).rect.getD (Rect.everything 255),
          (w3u1.merge w3u2).opacity.getD 255,
          (w3u1.merge w3u2).visible.getD true,
          ⟨0, 0⟩⟩) :=
  ⟨C3_merge_on_write.1 ⟨[], false⟩ ⟨[updOpacity 1 0], true⟩ (updOpacity 1 0)
      (by intro t; simp) (by decide) 0,
   C3_merge_on_write.2 [⟨none, Rect.everything 255, 255, true, ⟨0, 0⟩⟩] ⟨[], false⟩
      w3u1 w3u2 0 ⟨none, Rect.everything 255, 255, true, ⟨0, 0⟩⟩
      (by decide) (by decide) (by decide) (by decide) (by decide)⟩

/-- Unwrap of a successful mutator result, standing in for the source's
`.unwrap()`; the fallback is never reached in the scenarios below. -/
def getOk {ε α : Type} (x : Except ε α) (d : α) : α :=
  match x with
  | Except.ok a => a
  | Except.error _ => d

/-- Scenario for C1: a fresh pool with one surface. -/
def c1Chain0 : ShaderChain Nat :=
  (ShaderChain.new_surface (⟨[], ⟨[], false⟩⟩ : ShaderChain Nat) (Rect.everything 255)).1

/-- Scenario for C1 after `set_visible(false)`. -/
def c1Chain1 : ShaderChain Nat := getOk (c1Chain0.set_visible 0 false) c1Chain0

/-- Scenario for C1 after `set_opacity(128)`. -/
def c1Chain2 : ShaderChain Nat := getOk (c1Chain1.set_opacity 0 128) c1Chain1

/-- Scenario for C1 after `set_offset((1,1))`. -/
def c1Chain3 : ShaderChain Nat := getOk (c1Chain2.set_offset 0 ⟨1, 1⟩) c1Chain2

/-- Scenario for C1 after `commit()`. -/
def c1Final : ShaderChain Nat := c1Chain3.commit

/-- C1: handle mutators have no effect on the bindings before commit, and
commit applies visible and opacity from the pending patch — but the offset
carried by the same patch is dropped: after `set_offset((1,1))` and a commit
the binding's offset is still (0,0), not the patched (1,1).  `commit()` never
reads the patch's offset field (figments/src/surface.rs lines 223-241). -/
theorem C1_commit_drops_offset :
    c1Chain3.bindings = c1Chain0.bindings ∧
    (c1Chain3.bindings.getD 0 default).visible = true ∧
    (c1Chain3.bindings.getD 0 default).opacity = 255 ∧
    (c1Final.bindings.getD 0 default).visible = false ∧
    (c1Final.bindings.getD 0 default).opacity = 128 ∧
    (c1Final.bindings.getD 0 default).offset = ⟨0, 0⟩ ∧
    (c1Final.bindings.getD 0 default).offset ≠ ⟨1, 1⟩ := by
  decide

/-- Helper: writing one list cell leaves other positions unchanged. -/
theorem getD_set_ne {α : Type} (l : List α) (i j : Nat) (a d0 : α) (h : i ≠ j) :
    (l.set i a).getD j d0 = l.getD j d0 := by
  show ((l.set i a).get? j).getD d0 = (l.get? j).getD d0
  rw [List.get?_set_ne a l h]

/-- Helper: writing one in-bounds list cell is read back. -/
theorem getD_set_self {α : Type} (l : List α) (i : Nat) (a d0 : α) (h : i < l.length) :
    (l.set i a).getD i d0 = a := by
  show ((l.set i a).get? i).getD d0 = a
  rw [List.get?_set_eq_of_lt a h]
  rfl

/-- Helper: the linear iterator yields exactly the indices from the current
position up to the end index. -/
theorem linearRun_eq_range (endIdx fuel cur : Nat) (hle : cur ≤ endIdx)
    (hf : endIdx - cur ≤ fuel) :
    linearRun endIdx fuel cur = List.range' cur (endIdx - cur) := by
  induction fuel generalizing cur with
  | zero =>
    have h0 : endIdx - cur = 0 := by omega
    rw [h0]
    rfl
  | succ fuel ih =>
    by_cases hc : cur = endIdx
    · subst hc
      simp [linearRun, linearNext, Nat.sub_self]
    · have h1 : cur + 1 ≤ endIdx := by omega
      have h2 : endIdx - (cur + 1) ≤ fuel := by omega
      rw [show endIdx - cur = endIdx - (cur + 1) + 1 from by omega]
      show linearRun endIdx (fuel + 1) cur = cur :: List.range' (cur + 1) (endIdx - (cur + 1))
      simp only [linearRun, linearNext, if_neg hc]
      rw [ih (cur + 1) h1 h2]

/-- Helper: painting a list of indices never changes a position outside the
list. -/
theorem foldl_set_getD_not_mem {P : Type} (inds : List Nat) (f : Nat → P → P)
    (d : List P) (j : Nat) (d0 dd : P) (h : j ∉ inds) :
    ((inds.foldl (fun d2 i => d2.set i (f i (d2.getD i dd))) d).getD j d0) = d.getD j d0 := by
  induction inds generalizing d with
  | nil => rfl
  | cons i rest ih =>
    simp only [List.foldl_cons]
    have hj : j ≠ i := fun hc => h (by rw [hc]; exact List.mem_cons_self i rest)
    rw [ih _ (fun hc => h (List.mem_cons_of_mem i hc))]
    exact getD_set_ne _ _ _ _ _ (fun hc => hj hc.symm)

/-- Helper: scaling never exceeds the value, for u8 fractions. -/
theorem scale8_le (v s : Nat) (hs : s ≤ 255) : scale8 v s ≤ v := by
  by_cases h0 : s = 0
  · simp [scale8, h0]
  · by_cases h255 : s = 255
    · simp [scale8, h0, h255]
    · simp only [scale8, if_neg h0, if_neg h255]
      calc v * (1 + s) / 256 ≤ v * 256 / 256 :=
            Nat.div_le_div_right (Nat.mul_le_mul_left _ (by omega))
        _ = v := Nat.mul_div_cancel v (by norm_num)

/-- Helper: scaling is monotone in the fraction, for u8 fractions. -/
theorem scale8_mono (v s1 s2 : Nat) (h : s1 ≤ s2) (h2 : s2 ≤ 255) :
    scale8 v s1 ≤ scale8 v s2 := by
  by_cases h10 : s1 = 0
  · simp [scale8, h10]
  · by_cases h1255 : s1 = 255
    · have hs2 : s2 = 255 := by omega
      simp [scale8, h1255, hs2]
    · by_cases h20 : s2 = 0
      · exact absurd (by omega : s1 = 0) h10
      · simp only [scale8, if_neg h10, if_neg h1255, if_neg h20]
        by_cases h2255 : s2 = 255
        · rw [if_pos h2255]
          calc v * (1 + s1) / 256 ≤ v * 256 / 256 :=
                Nat.div_le_div_right (Nat.mul_le_mul_left _ (by omega))
            _ = v := Nat.mul_div_cancel v (by norm_num)
        · rw [if_neg h2255]
          exact Nat.div_le_div_right (Nat.mul_le_mul_left _ (by omega))

/-- C7 counterexample: over a 2-pixel buffer, sampling the full virtual
extent yields a single pair (the loop stops at `end_idx = scale8(N-1, 255)
= N-1`), not the claimed N = 2 pairs. -/
theorem C7_counterexample :
    (linearIndices 2 (Rect.everything 255) 10).length = 1 ∧ (1 : Nat) ≠ 2 := by
  decide

/-- C7 (amended): over an N-pixel buffer (1 ≤ N ≤ 256) and a rectangle with
left ≤ right in u8 range, the linear sampler yields exactly the indices of
the scaled half-open range [start, end) in ascending order — N−1 pairs for
the full extent, not N — and never mutates a pixel outside that range. -/
theorem C7_linear_sample {P : Type} [Inhabited P] (n l r t btm fuel j : Nat)
    (f : Nat → P → P) (dest : List P)
    (hn : 1 ≤ n) (hn2 : n ≤ 256) (hlr : l ≤ r) (hr : r ≤ 255)
    (hfuel : linearEnd n r - linearStart n l ≤ fuel)
    (hj : j < linearStart n l ∨ linearEnd n r ≤ j) :
    linearIndices n ⟨⟨l, t⟩, ⟨r, btm⟩⟩ fuel =
      List.range' (linearStart n l) (linearEnd n r - linearStart n l) ∧
    (linearPaint n ⟨⟨l, t⟩, ⟨r, btm⟩⟩ f fuel dest).getD j default = dest.getD j default := by
  have hse : linearStart n l ≤ linearEnd n r := scale8_mono _ _ _ hlr hr
  have hind : linearIndices n ⟨⟨l, t⟩, ⟨r, btm⟩⟩ fuel =
      List.range' (linearStart n l) (linearEnd n r - linearStart n l) :=
    linearRun_eq_range _ _ _ hse hfuel
  refine ⟨hind, ?_⟩
  unfold linearPaint
  rw [hind]
  apply foldl_set_getD_not_mem
  intro hmem
  rw [List.mem_range'_1] at hmem
  omega

/-- Witness for C7_linear_sample over a 4-pixel buffer. -/
theorem C7_linear_sample_witness :
    linearIndices 4 ⟨⟨0, 0⟩, ⟨255, 255⟩⟩ 10 =
      List.range' (linearStart 4 0) (linearEnd 4 255 - linearStart 4 0) ∧
    (linearPaint 4 ⟨⟨0, 0⟩, ⟨255, 255⟩⟩ (fun _ v => v + 1) 10
        [10, 20, 30, 40]).getD 3 default = [10, 20, 30, 40].getD 3 default :=
  C7_linear_sample 4 0 255 0 255 10 3 (fun _ v => v + 1) [10, 20, 30, 40]
    (by decide) (by decide) (by decide) (by decide) (by decide) (Or.inr (by decide))

/-- Helper: scaling the value zero gives zero. -/
theorem scale8_zero_left (s : Nat) : scale8 0 s = 0 := by
  simp [scale8]

/-- Helper: a single-segment stride mapping, fully evaluated. -/
theorem from_json_single (n : Nat) :
    from_json [(0, 0, n, false)] =
      ⟨[⟨n, 0, 0, false, 0⟩], n, ⟨⟨0, 0⟩, ⟨0, n - 1⟩⟩⟩ := by
  simp [from_json, fromJsonGo]

/-- Helper: on a single-segment mapping, the segment-space window of a
symmetric rectangle scales exactly like the linear mapper's index range,
placed on the y axis. -/
theorem strideRange_single (n l r : Nat) :
    strideRange (from_json [(0, 0, n, false)]) ⟨⟨l, l⟩, ⟨r, r⟩⟩ =
      ⟨⟨0, linearStart n l⟩, ⟨0, linearEnd n r⟩⟩ := by
  rw [from_json_single]
  simp [strideRange, Rect.width, Rect.height, Rect.left, Rect.top, scale8usize,
    scale8_zero_left, linearStart, linearEnd]

/-- Helper: the older stride iterator on a single full-length segment yields
the physical indices from the cursor down to the window's bottom inclusive. -/
theorem strideRunOld_single (n s e fuel y : Nat) (hn : 1 ≤ n) (he : e ≤ n - 1)
    (hs : s < e) (hy : s ≤ y) (hy2 : y ≤ e + 1) (hfuel : e + 2 - y ≤ fuel) :
    strideRunOld (⟨[⟨n, 0, 0, false, 0⟩], n, ⟨⟨0, 0⟩, ⟨0, n - 1⟩⟩⟩ : StrideMapping)
      ⟨⟨0, s⟩, ⟨0, e⟩⟩ fuel (0, y) = List.range' y (e + 1 - y) := by
  induction fuel generalizing y with
  | zero => exact absurd hfuel (by omega)
  | succ fuel ih =>
    have hhs : ¬ (e - s = 0) := by omega
    by_cases hye : y ≤ e
    · have hc1 : ¬ (e < y ∨ n - 1 < y) := by omega
      have hnext : strideNextOld
          (⟨[⟨n, 0, 0, false, 0⟩], n, ⟨⟨0, 0⟩, ⟨0, n - 1⟩⟩⟩ : StrideMapping)
          ⟨⟨0, s⟩, ⟨0, e⟩⟩ (0, y) = some (y, 0, y + 1) := by
        simp [strideNextOld, strideNextOldGo, Rect.height, Stride.pixel_idx_for_offset,
          hc1, hhs]
      have hrun : strideRunOld
          (⟨[⟨n, 0, 0, false, 0⟩], n, ⟨⟨0, 0⟩, ⟨0, n - 1⟩⟩⟩ : StrideMapping)
          ⟨⟨0, s⟩, ⟨0, e⟩⟩ (fuel + 1) (0, y) = y :: strideRunOld
          (⟨[⟨n, 0, 0, false, 0⟩], n, ⟨⟨0, 0⟩, ⟨0, n - 1⟩⟩⟩ : StrideMapping)
          ⟨⟨0, s⟩, ⟨0, e⟩⟩ fuel (0, y + 1) := by
        simp only [strideRunOld, hnext]
      rw [hrun, ih (y + 1) (by omega) (by omega) (by omega)]
      rw [show e + 1 - y = e + 1 - (y + 1) + 1 from by omega]
      rfl
    · have hy1 : y = e + 1 := by omega
      subst hy1
      have hc1 : e < e + 1 ∨ n - 1 < e + 1 := Or.inl (by omega)
      have hnext : strideNextOld
          (⟨[⟨n, 0, 0, false, 0⟩], n, ⟨⟨0, 0⟩, ⟨0, n - 1⟩⟩⟩ : StrideMapping)
          ⟨⟨0, s⟩, ⟨0, e⟩⟩ (0, e + 1) = none := by
        simp [strideNextOld, strideNextOldGo, Rect.height, hc1, hhs]
      have hrun : strideRunOld
          (⟨[⟨n, 0, 0, false, 0⟩], n, ⟨⟨0, 0⟩, ⟨0, n - 1⟩⟩⟩ : StrideMapping)
          ⟨⟨0, s⟩, ⟨0, e⟩⟩ (fuel + 1) (0, e + 1) = [] := by
        simp only [strideRunOld, hnext]
      rw [hrun]
      simp

/-- C8 counterexample: with a single full-length 2-pixel segment, sampling
the full virtual extent through the stride mapper yields two pairs (indices
0 and 1, the window's full closed y-range) while the linear mapper over the
same 2 pixels yields a single pair (index 0). -/
theorem C8_counterexample :
    strideIndicesOld (from_json [(0, 0, 2, false)]) (Rect.everything 255) 10 = [0, 1] ∧
    linearIndices 2 (Rect.everything 255) 10 = [0] ∧
    ([0, 1] : List Nat) ≠ [0] := by
  decide

/-- C8 (amended): a stride mapping made of a single full-length, non-reversed
segment samples the requested rectangle's y-extent where the linear mapper
samples its x-extent; on a symmetric rectangle (left = top, right = bottom)
with a non-degenerate scaled range, it visits the same physical pixels in the
same ascending order as the linear mapper of the same length plus exactly one
extra trailing pixel at the scaled end index — the two samplers are close but
not identical. -/
theorem C8_stride_vs_linear (n l r fuel : Nat) (hn : 1 ≤ n) (hn2 : n ≤ 256)
    (hlr : l ≤ r) (hr : r ≤ 255) (hlt : linearStart n l < linearEnd n r)
    (hfuel : linearEnd n r + 2 ≤ fuel) :
    strideIndicesOld (from_json [(0, 0, n, false)]) ⟨⟨l, l⟩, ⟨r, r⟩⟩ fuel =
      linearIndices n ⟨⟨l, l⟩, ⟨r, r⟩⟩ fuel ++ [linearEnd n r] ∧
    (strideIndicesOld (from_json [(0, 0, n, false)]) ⟨⟨l, l⟩, ⟨r, r⟩⟩ fuel).length =
      (linearIndices n ⟨⟨l, l⟩, ⟨r, r⟩⟩ fuel).length + 1 := by
  have he : linearEnd n r ≤ n - 1 := by
    have h1 : scale8 ((n - 1) % 256) r ≤ (n - 1) % 256 := scale8_le _ _ hr
    have h2 : (n - 1) % 256 = n - 1 := Nat.mod_eq_of_lt (by omega)
    simp only [linearEnd]
    omega
  have hstride : strideIndicesOld (from_json [(0, 0, n, false)]) ⟨⟨l, l⟩, ⟨r, r⟩⟩ fuel =
      List.range' (linearStart n l) (linearEnd n r + 1 - linearStart n l) := by
    unfold strideIndicesOld
    rw [strideRange_single, from_json_single]
    exact strideRunOld_single n (linearStart n l) (linearEnd n r) fuel
      (linearStart n l) hn he hlt (le_refl _) (by omega) (by omega)
  have hlin : linearIndices n ⟨⟨l, l⟩, ⟨r, r⟩⟩ fuel =
      List.range' (linearStart n l) (linearEnd n r - linearStart n l) :=
    linearRun_eq_range _ _ _ (le_of_lt hlt)
      (by simp only [Rect.right, Rect.left]; omega)
  constructor
  · rw [hstride, hlin]
    rw [show linearEnd n r + 1 - linearStart n l =
      (linearEnd n r - linearStart n l) + 1 from by omega]
    rw [List.range'_1_concat]
    congr 2
    omega
  · rw [hstride, hlin]
    simp [List.length_range']
    omega

/-- Witness for C8_stride_vs_linear: a 4-pixel single-segment strip. -/
theorem C8_stride_vs_linear_witness :
    strideIndicesOld (from_json [(0, 0, 4, false)]) ⟨⟨0, 0⟩, ⟨255, 255⟩⟩ 10 =
      linearIndices 4 ⟨⟨0, 0⟩, ⟨255, 255⟩⟩ 10 ++ [linearEnd 4 255] ∧
    (strideIndicesOld (from_json [(0, 0, 4, false)]) ⟨⟨0, 0⟩, ⟨255, 255⟩⟩ 10).length =
      (linearIndices 4 ⟨⟨0, 0⟩, ⟨255, 255⟩⟩ 10).length + 1 :=
  C8_stride_vs_linear 4 0 255 10 (by decide) (by decide) (by decide) (by decide)
    (by decide) (by decide)

/-- C10: the newer stride iterator overruns its own pixel count.  For the
mapping of a single 2-pixel segment, a full-extent sample yields three cells
whose physical indices are 0, 1 and 2 — index 2 equals `pixel_count`, one
past the last existing pixel, and the cell count 3 exceeds `pixel_count`. -/
theorem C10_stride_overruns_pixel_count :
    strideIndicesNew (from_json [(0, 0, 2, false)]) (Rect.everything 255) 10 = [0, 1, 2] ∧
    (from_json [(0, 0, 2, false)]).pixel_count = 2 ∧
    2 ∈ strideIndicesNew (from_json [(0, 0, 2, false)]) (Rect.everything 255) 10 ∧
    ¬ 2 < (from_json [(0, 0, 2, false)]).pixel_count ∧
    (strideIndicesNew (from_json [(0, 0, 2, false)]) (Rect.everything 255) 10).length >
      (from_json [(0, 0, 2, false)]).pixel_count := by
  decide

/-- Constant-white shader evaluation for the C2 scenarios. -/
def c2Draw : Nat → Coords → Unit → Rgb := fun _ _ _ => ⟨255, 255, 255⟩

/-- Modelled from the spec: component-wise coordinate addition standing in
for the `+` on `Coordinates` used by `render_to`, missing from src/. -/
def c2AddC : Coords → Coords → Coords := fun a b => ⟨a.x + b.x, a.y + b.y⟩

/-- One-pixel sampler for the C2 scenarios. -/
def c2Sample : Rect → List (Coords × Nat) := fun _ => [(⟨0, 0⟩, 0)]

/-- Engine state for the C2 counterexample: one white-shaded surface and an
uncommitted patch that sets its opacity to 0. -/
def c2Chain : ShaderChain Nat :=
  ⟨[⟨some 0, Rect.everything 255, 255, true, ⟨0, 0⟩⟩], ⟨[updOpacity 0 0], true⟩⟩

/-- C2 counterexample: the current revision's `render_to` does not perform
`commit()` first.  With an uncommitted opacity-0 patch pending, `render_to`
still composites the surface at its old opacity 255 and paints the
destination white, while the spec's commit-then-render reading leaves the
black destination untouched. -/
theorem C2_counterexample :
    renderTo c2Draw c2AddC Rgb.add c2Sample c2Chain () [⟨0, 0, 0⟩] = [⟨255, 255, 255⟩] ∧
    renderToSpec c2Draw c2AddC Rgb.add c2Sample c2Chain () [⟨0, 0, 0⟩] = [⟨0, 0, 0⟩] ∧
    ([(⟨255, 255, 255⟩ : Rgb)] ≠ [(⟨0, 0, 0⟩ : Rgb)]) := by
  decide

/-- Helper: the paint loop preserves the destination length. -/
theorem paintCells_length {P : Type} [Inhabited P] (g : Coords × Nat → P → P)
    (cells : List (Coords × Nat)) (d : List P) :
    (paintCells g cells d).length = d.length := by
  induction cells generalizing d with
  | nil => rfl
  | cons c rest ih =>
    have hstep : paintCells g (c :: rest) d =
        paintCells g rest (d.set c.2 (g c (d.getD c.2 default))) := rfl
    rw [hstep, ih, List.length_set]

/-- Helper: the paint loop never touches a cell index absent from the sample. -/
theorem paintCells_getD_not_target {P : Type} [Inhabited P] (g : Coords × Nat → P → P)
    (cells : List (Coords × Nat)) (d : List P) (j : Nat)
    (h : ∀ c ∈ cells, c.2 ≠ j) :
    (paintCells g cells d).getD j default = d.getD j default := by
  induction cells generalizing d with
  | nil => rfl
  | cons c rest ih =>
    have hstep : paintCells g (c :: rest) d =
        paintCells g rest (d.set c.2 (g c (d.getD c.2 default))) := rfl
    rw [hstep, ih _ (fun c2 hc2 => h c2 (List.mem_cons_of_mem c hc2))]
    exact getD_set_ne _ _ _ _ _ (h c (List.mem_cons_self c rest))

/-- Helper: with alias-free in-bounds samples, painting reads each cell's
prior value exactly once — position j ends up as `g cell (old value)` for the
unique sampled cell at j, and is untouched otherwise. -/
theorem paintCells_getD {P : Type} [Inhabited P] (g : Coords × Nat → P → P)
    (cells : List (Coords × Nat)) (d : List P) (j : Nat)
    (hnd : (cells.map Prod.snd).Nodup)
    (hb : ∀ cell ∈ cells, cell.2 < d.length) (hj : j < d.length) :
    (paintCells g cells d).getD j default =
      match cells.find? (fun cell => cell.2 = j) with
      | some cell => g cell (d.getD j default)
      | none => d.getD j default := by
  induction cells generalizing d with
  | nil => rfl
  | cons cell rest ih =>
    have hstep : paintCells g (cell :: rest) d =
        paintCells g rest (d.set cell.2 (g cell (d.getD cell.2 default))) := rfl
    rw [hstep]
    have hnd2 : (cell.2 :: rest.map Prod.snd).Nodup := by simpa using hnd
    rcases List.nodup_cons.mp hnd2 with ⟨hhead, htail⟩
    by_cases hcj : cell.2 = j
    · rw [List.find?_cons_of_pos _ (by simpa using hcj)]
      have hnotin : ∀ c2 ∈ rest, c2.2 ≠ j := by
        intro c2 hc2 hc2j
        exact hhead (by
          rw [hcj, ← hc2j]
          exact List.mem_map_of_mem Prod.snd hc2)
      rw [paintCells_getD_not_target _ _ _ _ hnotin]
      rw [hcj]
      exact getD_set_self _ _ _ _ hj
    · rw [List.find?_cons_of_neg _ (by simpa using hcj)]
      rw [ih _ htail
        (fun c2 hc2 => by rw [List.length_set]; exact hb c2 (List.mem_cons_of_mem cell hc2))
        (by rw [List.length_set]; exact hj)]
      have hd1 : (d.set cell.2 (g cell (d.getD cell.2 default))).getD j default =
          d.getD j default := getD_set_ne _ _ _ _ _ hcj
      rw [hd1]

/-- Helper: the render loop's effect on one destination cell, by induction
over the bindings in slot order. -/
theorem renderTo_getD_aux {S U P : Type} [Inhabited P] (drawShader : S → Coords → U → P)
    (addC : Coords → Coords → Coords) (addPix : P → P → Nat → P)
    (sample : Rect → List (Coords × Nat)) (uniforms : U) :
    ∀ (bs : List (ShaderBinding S)) (dest : List P) (j : Nat),
    (∀ rc, ((sample rc).map Prod.snd).Nodup) →
    (∀ rc, ∀ cell ∈ sample rc, cell.2 < dest.length) →
    j < dest.length →
    (renderTo drawShader addC addPix sample ⟨bs, ⟨[], false⟩⟩ uniforms dest).getD j default =
      bs.foldl
        (fun v surface =>
          if 0 < surface.opacity ∧ surface.visible = true then
            match surface.shader with
            | some sh =>
              match (sample surface.rect).find? (fun cell => cell.2 = j) with
              | some cell =>
                addPix v (drawShader sh (addC cell.1 surface.offset) uniforms)
                  surface.opacity
              | none => v
            | none => v
          else v)
        (dest.getD j default) := by
  intro bs
  induction bs with
  | nil => intro dest j _ _ _; rfl
  | cons b rest ih =>
    intro dest j hnd hb hj
    have hstep : renderTo drawShader addC addPix sample ⟨b :: rest, ⟨[], false⟩⟩ uniforms dest =
        renderTo drawShader addC addPix sample ⟨rest, ⟨[], false⟩⟩ uniforms
          (if 0 < b.opacity ∧ b.visible = true then
            match b.shader with
            | some shader =>
              paintCells
                (fun cell v =>
                  addPix v (drawShader shader (addC cell.1 b.offset) uniforms) b.opacity)
                (sample b.rect) dest
            | none => dest
          else dest) := rfl
    rw [hstep, List.foldl_cons]
    by_cases hcond : 0 < b.opacity ∧ b.visible = true
    · cases hsh : b.shader with
      | none =>
        simp only [if_pos hcond]
        exact ih dest j hnd hb hj
      | some sh =>
        simp only [if_pos hcond]
        rw [ih (paintCells
            (fun cell v =>
              addPix v (drawShader sh (addC cell.1 b.offset) uniforms) b.opacity)
            (sample b.rect) dest) j hnd
          (by
            intro rc cell hc
            rw [paintCells_length]
            exact hb rc cell hc)
          (by rw [paintCells_length]; exact hj)]
        congr 1
        exact paintCells_getD _ _ _ _ (hnd b.rect) (hb b.rect) hj
    · simp only [if_neg hcond]
      exact ih dest j hnd hb hj

/-- C2 (amended): `render_to` iterates the bindings in ascending slot order —
so higher slots composite over lower ones — skipping every binding whose
opacity is 0, whose visible flag is false or whose shader is unset, and
composites each remaining binding via `add(prior, shader(coord + offset),
opacity)` on every sampled cell; it does not perform `commit()`, so the
pending queue plays no part (see the counterexample).  Stated per destination
cell: the final value folds the bindings in slot order over the cell's prior
value. -/
theorem C2_render_cellwise {S U P : Type} [Inhabited P]
    (drawShader : S → Coords → U → P) (addC : Coords → Coords → Coords)
    (addPix : P → P → Nat → P) (sample : Rect → List (Coords × Nat))
    (c : ShaderChain S) (uniforms : U) (dest : List P) (j : Nat)
    (hnodup : ∀ rc, ((sample rc).map Prod.snd).Nodup)
    (hbound : ∀ rc, ∀ cell ∈ sample rc, cell.2 < dest.length)
    (hj : j < dest.length) :
    (renderTo drawShader addC addPix sample c uniforms dest).getD j default =
      c.bindings.foldl
        (fun v surface =>
          if 0 < surface.opacity ∧ surface.visible = true then
            match surface.shader with
            | some sh =>
              match (sample surface.rect).find? (fun cell => cell.2 = j) with
              | some cell =>
                addPix v (drawShader sh (addC cell.1 surface.offset) uniforms)
                  surface.opacity
              | none => v
            | none => v
          else v)
        (dest.getD j default) :=
  renderTo_getD_aux drawShader addC addPix sample uniforms c.bindings dest j
    hnodup hbound hj

/-- Engine state for the C2 witness: two stacked surfaces, the lower one
invisible. -/
def c2wChain : ShaderChain Nat :=
  ⟨[⟨some 0, Rect.everything 255, 255, false, ⟨0, 0⟩⟩,
    ⟨some 0, Rect.everything 255, 200, true, ⟨0, 0⟩⟩], ⟨[], false⟩⟩

/-- Witness for C2_render_cellwise on a one-pixel destination. -/
theorem C2_render_cellwise_witness :
    (renderTo c2Draw c2AddC Rgb.add c2Sample c2wChain () [⟨1, 2, 3⟩]).getD 0 default =
      c2wChain.bindings.foldl
        (fun v surface =>
          if 0 < surface.opacity ∧ surface.visible = true then
            match surface.shader with
            | some sh =>
              match (c2Sample surface.rect).find? (fun cell => cell.2 = 0) with
              | some cell =>
                Rgb.add v (c2Draw sh (c2AddC cell.1 surface.offset) ()) surface.opacity
              | none => v
            | none => v
          else v)
        (([⟨1, 2, 3⟩] : List Rgb).getD 0 default) :=
  C2_render_cellwise c2Draw c2AddC Rgb.add c2Sample c2wChain () [⟨1, 2, 3⟩] 0
    (by intro rc; simp [c2Sample]) (by intro rc cell hc; simp [c2Sample] at hc; simp [hc])
    (by decide)

end Figments